import Mathlib

/-!
Verification of the naming analyzer of `aiready-consistency`
(`src/analyzers/naming.ts`), shallowly embedded in Lean.

Modelling conventions:
* A file's text is a `String`; a single line is a `List Char`.
* The JavaScript regexes of the analyzer are embedded as hand-written
  matchers that follow the exact semantics of each concrete pattern
  (word boundaries, greedy character runs, lookaheads, alternation, and
  the `matchAll` left-to-right scan that resumes after each match).
  Each matcher returns the captured group together with the number of
  characters consumed, and the scanner advances by that amount (or by
  one character after a failed attempt), exactly as the JS engine does.
* JavaScript numbers appear only in `detectNamingConventions`; the one
  float operation (`count / totalChecks > 0.3`) is modelled exactly,
  including IEEE division by zero (see `ratioGtPoint3`).
* `readFileContent` (the external Content Provider) is a parameter of
  type `String → Except String String`; the `async`/`await` exception
  flow of `analyzeNaming` is the `Except` short-circuit.
-/

namespace AiReady

/-- Severity of an issue: the string union of the TypeScript source. -/
inductive Severity
  | info
  | minor
  | major
  | critical
deriving DecidableEq

/-- Category of a naming issue: the string union
`poor-naming | abbreviation | convention-mix | unclear` of the source. -/
inductive IssueType
  | poorNaming
  | abbreviation
  | conventionMix
  | unclear
deriving DecidableEq

/-- The `NamingIssue` record pushed by `analyzeFileNaming`. -/
structure NamingIssue where
  file : String
  line : Nat
  type : IssueType
  identifier : String
  severity : Severity
  suggestion : String
deriving DecidableEq

/-- JS `\s` (whitespace class), restricted to the ASCII characters that
can occur in the analyzed lines. -/
def isWs (c : Char) : Bool :=
  c == ' ' || c == '\t' || c == '\n' || c == '\r' || c == '\x0b' || c == '\x0c'

/-- The class `[0-9]`. -/
def isDigitC (c : Char) : Bool := '0' ≤ c && c ≤ '9'

/-- The class `[a-z]`. -/
def isLowerAZ (c : Char) : Bool := 'a' ≤ c && c ≤ 'z'

/-- The class `[A-Z]`. -/
def isUpperAZ (c : Char) : Bool := 'A' ≤ c && c ≤ 'Z'

/-- The class `[a-zA-Z]`. -/
def isAsciiLetter (c : Char) : Bool := isLowerAZ c || isUpperAZ c

/-- JS `\w`, i.e. `[A-Za-z0-9_]`. -/
def isWordChar (c : Char) : Bool := isAsciiLetter c || isDigitC c || c == '_'

/-- ASCII `toLowerCase`, as applied by the analyzer to identifiers. -/
def lcChar (c : Char) : Char :=
  if isUpperAZ c then Char.ofNat (c.toNat + 32) else c

/-- ASCII `toUpperCase`, used by `snakeCaseToCamelCase`. -/
def ucChar (c : Char) : Char :=
  if isLowerAZ c then Char.ofNat (c.toNat - 32) else c

/-- `leadsWith pat s` : `pat` is a literal prefix of `s`. -/
def leadsWith : List Char → List Char → Bool
  | [], _ => true
  | _ :: _, [] => false
  | p :: ps, c :: cs => p == c && leadsWith ps cs

/-- Case-insensitive variant of `leadsWith` (for regexes with the `i` flag). -/
def leadsWithCI : List Char → List Char → Bool
  | [], _ => true
  | _ :: _, [] => false
  | p :: ps, c :: cs => lcChar p == lcChar c && leadsWithCI ps cs

/-- `containsSub pat s` : `pat` occurs as a contiguous substring of `s`;
models JS `String.prototype.includes`. -/
def containsSub (pat : List Char) : List Char → Bool
  | [] => leadsWith pat []
  | c :: cs => leadsWith pat (c :: cs) || containsSub pat cs

/-- `trailsWith pat s` : `pat` is a literal suffix of `s` (anchored `$`). -/
def trailsWith (pat s : List Char) : Bool := leadsWith pat.reverse s.reverse

/-- Length of the maximal prefix of characters satisfying `p`
(the greedy run of a character class). -/
def runLen (p : Char → Bool) : List Char → Nat
  | c :: cs => if p c then runLen p cs + 1 else 0
  | [] => 0

/-- Drop the maximal whitespace prefix (greedy `\s*`). -/
def skipWs (s : List Char) : List Char := s.drop (runLen isWs s)

/-- The head of `s` is the character `c`. -/
def headIs (c : Char) : List Char → Bool
  | x :: _ => x == c
  | [] => false

/-- A word boundary `\b` holds before a word character exactly when the
previous character (if any) is not a word character. -/
def nonWordPrev : Option Char → Bool
  | none => true
  | some c => !isWordChar c

/-- Match of the alternation `(?:const|let|var)` at the head of `s`
(case-insensitively when `ci` is set, for regexes with the `i` flag);
returns the number of characters consumed.  The three keywords start
with distinct letters, so at most one alternative can match. -/
def kwLen (ci : Bool) (s : List Char) : Option Nat :=
  if (if ci then leadsWithCI "const".toList s else leadsWith "const".toList s) then some 5
  else if (if ci then leadsWithCI "let".toList s else leadsWith "let".toList s) then some 3
  else if (if ci then leadsWithCI "var".toList s else leadsWith "var".toList s) then some 3
  else none

/-- The character class `[a-hm-z]` under the `i` flag: the lowercase form
lies in `a`–`h` or `m`–`z` (so `i`,`j`,`k`,`l` are excluded). -/
def inSingleClass (c : Char) : Bool :=
  (('a' ≤ lcChar c) && (lcChar c ≤ 'h')) || (('m' ≤ lcChar c) && (lcChar c ≤ 'z'))

/-- The word list of `/\.(map|filter|forEach|reduce|find|some|every)\s*\(/`. -/
def dotCallWords : List String :=
  ["map", "filter", "forEach", "reduce", "find", "some", "every"]

/-- Test of `/\.(map|filter|forEach|reduce|find|some|every)\s*\(/`:
somewhere in the line a dot is followed by one of the method names, then
optional whitespace, then an opening parenthesis. -/
def dotCallTest : List Char → Bool
  | [] => false
  | '.' :: rest =>
      (dotCallWords.any fun w =>
        leadsWith w.toList rest && headIs '(' (skipWs (rest.drop w.toList.length)))
      || dotCallTest rest
  | _ :: rest => dotCallTest rest

/-- Test of `/\w+\s*=>\s*/`: some maximal word-character run (of length at
least one) is followed, after optional whitespace, by `=>`.  Shrinking the
greedy `\w+` cannot help the JS engine here because the next character
would still be a word character, which matches neither `\s` nor `=`,
so testing the maximal run at each start position is exact. -/
def wordArrowTest : List Char → Bool
  | [] => false
  | c :: rest =>
      (isWordChar c &&
        leadsWith "=>".toList (skipWs ((c :: rest).drop (runLen isWordChar (c :: rest)))))
      || wordArrowTest rest

/-- Scanner for `/\bt\s*\(['"]/` carrying the previous character for the
word boundary. -/
def tCallGo : Option Char → List Char → Bool
  | _, [] => false
  | prev, c :: rest =>
      (c == 't' && nonWordPrev prev &&
        (match skipWs rest with
         | '(' :: r2 =>
             (match r2 with
              | q :: _ => q == '\x27' || q == '"'
              | [] => false)
         | _ => false))
      || tCallGo (some c) rest

/-- Test of `/\bt\s*\(['"]/` (the `t('key')` i18n pattern). -/
def tCallTest (line : List Char) : Bool := tCallGo none line

/-- The starred group `(?:,\s*[a-z]\s*)*` followed by `)` of the arrow
parameter regex; returns the remainder after the closing parenthesis.
The group is forced: whenever the head is a comma the iteration must be
taken, so the greedy star needs no backtracking.  `fuel` bounds the
recursion; each iteration consumes at least two characters, so an
initial fuel of the list length is sufficient. -/
def parenGroups : Nat → List Char → Option (List Char)
  | _, ')' :: rest => some rest
  | fuel + 1, ',' :: rest =>
      (match skipWs rest with
       | c :: r2 => if isLowerAZ c then parenGroups fuel (skipWs r2) else none
       | [] => none)
  | _, _ => none

/-- Attempt of `/\(\s*[a-z]\s*(?:,\s*[a-z]\s*)*\)\s*=>/` just after an
opening parenthesis. -/
def parenParamAt (rest : List Char) : Bool :=
  match skipWs rest with
  | c :: r2 =>
      isLowerAZ c &&
        (match parenGroups r2.length (skipWs r2) with
         | some after => leadsWith "=>".toList (skipWs after)
         | none => false)
  | [] => false

/-- Test of `/\(\s*[a-z]\s*(?:,\s*[a-z]\s*)*\)\s*=>/` anywhere in the line. -/
def parenParamTest : List Char → Bool
  | [] => false
  | '(' :: rest => parenParamAt rest || parenParamTest rest
  | _ :: rest => parenParamTest rest

/-- Test of `/[a-z]\s*=>/` anywhere in the line. -/
def singleCharArrowTest : List Char → Bool
  | [] => false
  | c :: rest =>
      (isLowerAZ c && leadsWith "=>".toList (skipWs rest)) || singleCharArrowTest rest

/-- Scanner for the dynamic regex `new RegExp("\\b" + abbrev + "\\s*=>")`:
a word boundary, the literal token, optional whitespace, then `=>`. -/
def abbrevArrowGo (tok : List Char) : Option Char → List Char → Bool
  | _, [] => false
  | prev, c :: rest =>
      (nonWordPrev prev && leadsWith tok (c :: rest) &&
        leadsWith "=>".toList (skipWs ((c :: rest).drop tok.length)))
      || abbrevArrowGo tok (some c) rest

/-- Test of the dynamic arrow regex for a concrete (lowercase) token. -/
def abbrevArrowTest (tok line : List Char) : Bool := abbrevArrowGo tok none line

/-- Lowercase an entire line (for regexes with the `i` flag). -/
def lcList (s : List Char) : List Char := s.map lcChar

/-- Case-insensitive test that the line mentions one of the words
(an alternation of literals under the `i` flag). -/
def mentionsAny (words : List String) (line : List Char) : Bool :=
  words.any fun w => containsSub w.toList (lcList line)

/-- Test of `/date|time|day|hour|minute|second|timestamp/i`. -/
def isDateTimeContextFn (line : List Char) : Bool :=
  mentionsAny ["date", "time", "day", "hour", "minute", "second", "timestamp"] line

/-- Test of `/user|auth|account/i`. -/
def isUserContextFn (line : List Char) : Bool :=
  mentionsAny ["user", "auth", "account"] line

/-- The `COMMON_SHORT_WORDS` set of the source, transcribed in order
(`Set` membership only depends on the underlying elements, so the
duplicated entries of the source literal are kept as written). -/
def COMMON_SHORT_WORDS : List String :=
  ["day", "key", "net", "to", "go", "for", "not", "new", "old", "top", "end",
   "run", "try", "use", "get", "set", "add", "put", "map", "log", "row", "col",
   "tab", "box", "div", "nav", "tag", "any", "all", "one", "two", "out", "off",
   "on", "yes", "no", "now", "max", "min", "sum", "avg", "ref", "src", "dst",
   "raw", "def", "sub", "pub", "pre", "mid", "alt", "opt", "tmp", "ext", "sep",
   "tax", "cat", "dog", "car", "bus", "web", "app", "war", "law", "pay", "buy",
   "win", "cut", "hit", "hot", "pop", "job", "age", "act", "let", "lot", "bad",
   "big", "far", "few", "own", "per", "red", "low", "see", "six", "ten", "way",
   "who", "why", "yet", "via", "due", "fee", "fun", "gas", "gay", "god", "gun",
   "guy", "ice", "ill", "kid", "mad", "man", "mix", "mom", "mrs", "nor", "odd",
   "oil", "pan", "pet", "pit", "pot", "pow", "pro", "raw", "rep", "rid", "sad",
   "sea", "sit", "sky", "son", "tea", "tie", "tip", "van", "war", "win", "won"]

/-- The `ACCEPTABLE_ABBREVIATIONS` set of the source, transcribed in order. -/
def ACCEPTABLE_ABBREVIATIONS : List String :=
  ["id", "uid", "gid", "pid",
   "i", "j", "k", "n", "m",
   "url", "uri", "api", "cdn", "dns", "ip", "tcp", "udp", "http", "ssl", "tls",
   "utm", "seo", "rss", "xhr", "ajax", "cors", "ws", "wss",
   "json", "xml", "yaml", "csv", "html", "css", "svg", "pdf",
   "img", "txt", "doc", "docx", "xlsx", "ppt", "md", "rst", "jpg", "png", "gif",
   "db", "sql", "orm", "dao", "dto", "ddb", "rds", "nosql",
   "fs", "dir", "tmp", "src", "dst", "bin", "lib", "pkg",
   "os", "env", "arg", "cli", "cmd", "exe", "cwd", "pwd",
   "ui", "ux", "gui", "dom", "ref",
   "req", "res", "ctx", "err", "msg", "auth",
   "max", "min", "avg", "sum", "abs", "cos", "sin", "tan", "log", "exp",
   "pow", "sqrt", "std", "var", "int", "num", "idx",
   "now", "utc", "tz", "ms", "sec", "hr", "min", "yr", "mo",
   "app", "cfg", "config", "init", "len", "val", "str", "obj", "arr",
   "gen", "def", "raw", "new", "old", "pre", "post", "sub", "pub",
   "ts", "js", "jsx", "tsx", "py", "rb", "vue", "re", "fn", "fns", "mod", "opts", "dev",
   "s3", "ec2", "sqs", "sns", "vpc", "ami", "iam", "acl", "elb", "alb", "nlb", "aws",
   "fcp", "lcp", "cls", "ttfb", "tti", "fid", "fps", "qps", "rps", "tps",
   "po", "e2e", "a11y", "i18n", "l10n",
   "sk", "fy", "faq", "og", "seo", "cta", "roi", "kpi",
   "is", "has", "can", "did", "was", "are",
   "d", "t", "dt"]

/-- Matcher of `/\b(?:const|let|var)\s+([a-hm-z])\s*=/gi` at the current
position: keyword (case-insensitive), at least one whitespace, one letter
of the class, optional whitespace, `=`.  Returns the captured letter and
the consumed length.  `\s+` and `\s*` need no backtracking because the
characters demanded next (`[a-hm-z]` resp. `=`) are never whitespace. -/
def matchSingleLetter (prev : Option Char) (s : List Char) : Option (Char × Nat) :=
  if nonWordPrev prev then
    match kwLen true s with
    | some k =>
        let r1 := s.drop k
        let w := runLen isWs r1
        if 1 ≤ w then
          match r1.drop w with
          | c :: r3 =>
              if inSingleClass c then
                let w2 := runLen isWs r3
                if headIs '=' (r3.drop w2) then some (c, k + w + 1 + w2 + 1) else none
              else none
          | [] => none
        else none
    | none => none
  else none

/-- The lookahead `(?=[A-Z]|_|\s*=)` of the abbreviation regex (not
consumed by the match). -/
def abbrevLookahead (t : List Char) : Bool :=
  (match t with
   | c :: _ => isUpperAZ c || c == '_'
   | [] => false)
  || headIs '=' (skipWs t)

/-- One greedy attempt of `([a-z]{1,3})` with exactly `len` letters,
then the lookahead. -/
def abbrevTokAt (r2 : List Char) (len : Nat) : Option (List Char) :=
  let tok := r2.take len
  if tok.length == len && tok.all isLowerAZ && abbrevLookahead (r2.drop len) then
    some tok
  else none

/-- Matcher of `/\b(?:const|let|var)\s+([a-z]{1,3})(?=[A-Z]|_|\s*=)/g`:
keyword (case-sensitive), whitespace, then the greedy `{1,3}` quantifier
tries three letters first, then two, then one, each against the
lookahead.  The lookahead is zero-width, so the consumed length stops
after the captured token. -/
def matchAbbrev (prev : Option Char) (s : List Char) : Option (List Char × Nat) :=
  if nonWordPrev prev then
    match kwLen false s with
    | some k =>
        let r1 := s.drop k
        let w := runLen isWs r1
        if 1 ≤ w then
          let r2 := r1.drop w
          match (abbrevTokAt r2 3).orElse fun _ =>
                  (abbrevTokAt r2 2).orElse fun _ => abbrevTokAt r2 1 with
          | some tok => some (tok, k + w + tok.length)
          | none => none
        else none
    | none => none
  else none

/-- Matcher of `/\b(?:const|let|var)\s+([a-z][a-z0-9]*_[a-z0-9_]*)\s*=/`:
first letter, greedy `[a-z0-9]*` run, an underscore, greedy `[a-z0-9_]*`
run, optional whitespace, `=`.  The greedy runs need no backtracking:
the characters demanded after each run (`_`, respectively `\s*=`) are
outside the run's class. -/
def matchSnake (prev : Option Char) (s : List Char) : Option (List Char × Nat) :=
  if nonWordPrev prev then
    match kwLen false s with
    | some k =>
        let r1 := s.drop k
        let w := runLen isWs r1
        if 1 ≤ w then
          match r1.drop w with
          | c :: r3 =>
              if isLowerAZ c then
                let a := runLen (fun x => isLowerAZ x || isDigitC x) r3
                match r3.drop a with
                | '_' :: r5 =>
                    let b := runLen (fun x => isLowerAZ x || isDigitC x || x == '_') r5
                    let r6 := r5.drop b
                    let w2 := runLen isWs r6
                    if headIs '=' (r6.drop w2) then
                      some (c :: (r3.take a ++ '_' :: r5.take b),
                            k + w + 1 + a + 1 + b + w2 + 1)
                    else none
                | _ => none
              else none
          | [] => none
        else none
    | none => none
  else none

/-- Matcher of `/\b(?:const|let|var)\s+([a-z][a-zA-Z0-9]*)\s*:\s*boolean/gi`:
under the `i` flag `[a-z]` matches any ASCII letter and `boolean` is
compared case-insensitively. -/
def matchBoolean (prev : Option Char) (s : List Char) : Option (List Char × Nat) :=
  if nonWordPrev prev then
    match kwLen true s with
    | some k =>
        let r1 := s.drop k
        let w := runLen isWs r1
        if 1 ≤ w then
          match r1.drop w with
          | c :: r3 =>
              if isAsciiLetter c then
                let a := runLen (fun x => isAsciiLetter x || isDigitC x) r3
                let r4 := r3.drop a
                let w2 := runLen isWs r4
                match r4.drop w2 with
                | ':' :: r6 =>
                    let w3 := runLen isWs r6
                    if leadsWithCI "boolean".toList (r6.drop w3) then
                      some (c :: r3.take a, k + w + 1 + a + w2 + 1 + w3 + 7)
                    else none
                | _ => none
              else none
          | [] => none
        else none
    | none => none
  else none

/-- Matcher of `/function\s+([a-z][a-zA-Z0-9]*)/g` (note: the source
regex has no word boundary before `function`). -/
def matchFunction (_prev : Option Char) (s : List Char) : Option (List Char × Nat) :=
  if leadsWith "function".toList s then
    let r1 := s.drop 8
    let w := runLen isWs r1
    if 1 ≤ w then
      match r1.drop w with
      | c :: r3 =>
          if isLowerAZ c then
            let a := runLen (fun x => isAsciiLetter x || isDigitC x) r3
            some (c :: r3.take a, 8 + w + 1 + a)
          else none
      | [] => none
    else none
  else none

/-- The `matchAll` scan: try the matcher at every position from left to
right; after a successful match resume right after its consumed text
(JS sets `lastIndex` to `index + match.length`), otherwise advance one
character.  The previous character is carried for word boundaries.
Every successful match of the matchers above consumes at least one
character, so a fuel equal to the list length never truncates the scan. -/
def scanAll {α : Type} (m : Option Char → List Char → Option (α × Nat)) :
    Nat → Option Char → List Char → List α
  | 0, _, _ => []
  | _ + 1, _, [] => []
  | fuel + 1, prev, c :: cs =>
      match m prev (c :: cs) with
      | some (a, k) => a :: scanAll m fuel ((c :: cs).get? (k - 1)) ((c :: cs).drop k)
      | none => scanAll m fuel (some c) cs

/-- All matches of the single-letter regex on a line. -/
def singleLetterScan (line : List Char) : List Char :=
  scanAll matchSingleLetter line.length none line

/-- All matches of the abbreviation regex on a line. -/
def abbrevScan (line : List Char) : List (List Char) :=
  scanAll matchAbbrev line.length none line

/-- All matches of the snake-case regex on a line (the source uses
`line.match`, i.e. only the first of these). -/
def snakeScan (line : List Char) : List (List Char) :=
  scanAll matchSnake line.length none line

/-- All matches of the boolean-annotation regex on a line. -/
def booleanScan (line : List Char) : List (List Char) :=
  scanAll matchBoolean line.length none line

/-- All matches of the function-declaration regex on a line. -/
def functionScan (line : List Char) : List (List Char) :=
  scanAll matchFunction line.length none line

/-- Body of the single-letter loop: the context predicates and the
exempt-set / test-file checks, then the `poor-naming` push. -/
def singleLetterEmit (file : String) (isTest : Bool) (line : List Char) (n : Nat)
    (c : Char) : Option NamingIssue :=
  let letter := lcChar c
  let isInLoopContext :=
    containsSub "for".toList line || dotCallTest line ||
    containsSub "=>".toList line || wordArrowTest line
  let isI18nContext :=
    containsSub "useTranslation".toList line || containsSub "i18n.t".toList line ||
    tCallTest line
  let isArrowFunctionParam := parenParamTest line || singleCharArrowTest line
  if !isInLoopContext && !isI18nContext && !isArrowFunctionParam &&
      !(decide (letter ∈ (['x', 'y', 'z', 'i', 'j', 'k', 'l', 'n', 'm'] : List Char))) then
    if isTest && decide (letter ∈ (['a', 'b', 'c', 'd', 'e', 'f', 's'] : List Char)) then
      none
    else
      some { file := file, line := n, type := .poorNaming, identifier := String.mk [c],
             severity := .minor,
             suggestion := "Use descriptive variable name instead of single letter \x27"
               ++ String.mk [c] ++ "\x27" }
  else none

/-- The `abbreviation` issue pushed by the abbreviation rule. -/
def mkAbbrevIssue (file : String) (n : Nat) (tok : List Char) : NamingIssue :=
  { file := file, line := n, type := .abbreviation, identifier := String.mk tok,
    severity := .info,
    suggestion := "Consider using full word instead of abbreviation \x27"
      ++ String.mk tok ++ "\x27" }

/-- Body of the abbreviation loop: whitelist checks (common words first,
then acceptable abbreviations), arrow-parameter suppression, and - for
tokens of length at most two - the date/time and user/auth overrides. -/
def abbrevEmit (file : String) (line : List Char) (n : Nat) (tok : List Char) :
    Option NamingIssue :=
  let ab := tok.map lcChar
  if decide (String.mk ab ∈ COMMON_SHORT_WORDS) then none
  else if decide (String.mk ab ∈ ACCEPTABLE_ABBREVIATIONS) then none
  else
    let isArrowFunctionParam := parenParamTest line || abbrevArrowTest ab line
    if isArrowFunctionParam then none
    else
      if ab.length ≤ 2 then
        if isDateTimeContextFn line &&
            decide (String.mk ab ∈ (["d", "t", "dt"] : List String)) then none
        else if isUserContextFn line && decide (String.mk ab = "u") then none
        else some (mkAbbrevIssue file n tok)
      else some (mkAbbrevIssue file n tok)

/-- `snakeCaseToCamelCase`: `str.replace(/_([a-z])/g, up)` - every
underscore immediately followed by a lowercase letter is removed and the
letter upper-cased; replacement is left-to-right and non-overlapping. -/
def snakeCaseToCamelCase : List Char → List Char
  | '_' :: c :: rest =>
      if isLowerAZ c then ucChar c :: snakeCaseToCamelCase rest
      else '_' :: snakeCaseToCamelCase (c :: rest)
  | c :: rest => c :: snakeCaseToCamelCase rest
  | [] => []

/-- The convention-mix check of a line: the source uses `line.match`
(no `g` flag), i.e. only the first snake-case match is considered.
(The `camelCaseVars` match computed alongside it in the source is never
used and is omitted.) -/
def snakeLineIssues (file : String) (n : Nat) (line : List Char) : List NamingIssue :=
  match (snakeScan line).head? with
  | some tok =>
      [{ file := file, line := n, type := .conventionMix, identifier := String.mk tok,
         severity := .minor,
         suggestion := "Use camelCase \x27" ++ String.mk (snakeCaseToCamelCase tok)
           ++ "\x27 instead of snake_case in TypeScript/JavaScript" }]
  | none => []

/-- The clarity name beginnings of `/^(is|has|should|can|will|did)/i`. -/
def clarityStarts : List String := ["is", "has", "should", "can", "will", "did"]

/-- Body of the boolean-clarity loop. -/
def booleanEmit (file : String) (n : Nat) (tok : List Char) : Option NamingIssue :=
  if clarityStarts.any (fun p => leadsWith p.toList (tok.map lcChar)) then none
  else
    some { file := file, line := n, type := .unclear, identifier := String.mk tok,
           severity := .info,
           suggestion := "Boolean variable \x27" ++ String.mk tok
             ++ "\x27 should start with is/has/should/can for clarity" }

/-- The keyword list skipped by the function-verb rule. -/
def jsKeywords : List String :=
  ["for", "if", "else", "while", "do", "switch", "case", "break", "continue",
   "return", "throw", "try", "catch", "finally", "with", "yield", "await"]

/-- The entry-point names skipped by the function-verb rule. -/
def entryPoints : List String := ["main", "init", "setup", "bootstrap"]

/-- The factory-pattern suffixes `(Factory|Builder|Creator|Generator)$`. -/
def factoryEnds : List String := ["Factory", "Builder", "Creator", "Generator"]

/-- The leading words of `/^(default|total|count|sum|avg|max|min|initial|current|previous|next)\w+/`. -/
def descStarts : List String :=
  ["default", "total", "count", "sum", "avg", "max", "min", "initial", "current",
   "previous", "next"]

/-- The trailing words of `/\w+(Count|Total|Sum|Average|List|Map|Set|Config|Settings|Options|Props)$/`. -/
def descEnds : List String :=
  ["Count", "Total", "Sum", "Average", "List", "Map", "Set", "Config", "Settings",
   "Options", "Props"]

/-- The action-verb alternation of the function-verb rule, in source order. -/
def actionVerbs : List String :=
  ["get", "set", "is", "has", "can", "should", "create", "update", "delete",
   "fetch", "load", "save", "process", "handle", "validate", "check", "find",
   "search", "filter", "map", "reduce", "make", "do", "run", "start", "stop",
   "build", "parse", "format", "render", "calculate", "compute", "generate",
   "transform", "convert", "normalize", "sanitize", "encode", "decode",
   "compress", "extract", "merge", "split", "join", "sort", "compare", "test",
   "verify", "ensure", "apply", "execute", "invoke", "call", "emit", "dispatch",
   "trigger", "listen", "subscribe", "unsubscribe", "add", "remove", "clear",
   "reset", "toggle", "enable", "disable", "open", "close", "connect",
   "disconnect", "send", "receive", "read", "write", "import", "export",
   "register", "unregister", "mount", "unmount"]

/-- Body of the function-verb loop.  A captured name consists only of
`[a-zA-Z0-9]`, i.e. word characters, so the tests `/^(pfx)\w+/` and
`/\w+(sfx)$/` are exactly a literal prefix (resp. suffix) check together
with the length requirement of the `\w+` part. -/
def functionEmit (file : String) (n : Nat) (tok : List Char) : Option NamingIssue :=
  let name := String.mk tok
  if decide (name ∈ jsKeywords) then none
  else if decide (name ∈ entryPoints) then none
  else
    let isFactoryPattern := factoryEnds.any fun p => trailsWith p.toList tok
    let isEventHandler :=
      match tok with
      | 'o' :: 'n' :: c :: _ => isUpperAZ c
      | _ => false
    let isDescriptiveLong := decide (15 < tok.length)
    let isDescriptivePattern :=
      (descStarts.any fun p => leadsWith p.toList tok && decide (p.toList.length < tok.length)) ||
      (descEnds.any fun p => trailsWith p.toList tok && decide (p.toList.length < tok.length))
    let capitalCount := (tok.filter isUpperAZ).length
    let isCompoundWord := decide (3 ≤ capitalCount)
    let hasActionVerb := actionVerbs.any fun v => leadsWith v.toList tok
    if !hasActionVerb && !isFactoryPattern && !isEventHandler && !isDescriptiveLong &&
        !isDescriptivePattern && !isCompoundWord then
      some { file := file, line := n, type := .unclear, identifier := name,
             severity := .info,
             suggestion := "Function \x27" ++ name
               ++ "\x27 should start with an action verb (get, set, create, etc.)" }
    else none

/-- The `poor-naming` issues of one line. -/
def singleLetterLineIssues (file : String) (isTest : Bool) (n : Nat) (line : List Char) :
    List NamingIssue :=
  (singleLetterScan line).filterMap (singleLetterEmit file isTest line n)

/-- The `abbreviation` issues of one line. -/
def abbrevLineIssues (file : String) (n : Nat) (line : List Char) : List NamingIssue :=
  (abbrevScan line).filterMap (abbrevEmit file line n)

/-- The `unclear` boolean-name issues of one line. -/
def booleanLineIssues (file : String) (n : Nat) (line : List Char) : List NamingIssue :=
  (booleanScan line).filterMap (booleanEmit file n)

/-- The `unclear` function-name issues of one line. -/
def functionLineIssues (file : String) (n : Nat) (line : List Char) : List NamingIssue :=
  (functionScan line).filterMap (functionEmit file n)

/-- All issues of one line, in the source's rule order (the convention-mix
rule runs only for `ts|tsx|js|jsx` files). -/
def lineIssues (file : String) (isTest isTs : Bool) (n : Nat) (line : List Char) :
    List NamingIssue :=
  singleLetterLineIssues file isTest n line
    ++ abbrevLineIssues file n line
    ++ (if isTs then snakeLineIssues file n line else [])
    ++ booleanLineIssues file n line
    ++ functionLineIssues file n line

/-- `content.split('\n')` : splitting on newline, JS semantics
(the empty string splits to one empty line). -/
def splitLines : List Char → List (List Char)
  | [] => [[]]
  | '\n' :: rest => [] :: splitLines rest
  | c :: rest =>
      match splitLines rest with
      | l :: ls => (c :: l) :: ls
      | [] => [[c]]

/-- Test-file classification `/\.(test|spec)\.(ts|tsx|js|jsx)$/`. -/
def isTestFile (file : String) : Bool :=
  ([".test.ts", ".test.tsx", ".test.js", ".test.jsx",
    ".spec.ts", ".spec.tsx", ".spec.js", ".spec.jsx"] : List String).any
    fun suf => trailsWith suf.toList file.toList

/-- Ecosystem-file classification `/\.(ts|tsx|js|jsx)$/`. -/
def isTsFile (file : String) : Bool :=
  ([".ts", ".tsx", ".js", ".jsx"] : List String).any
    fun suf => trailsWith suf.toList file.toList

/-- The `lines.forEach((line, index) => ...)` loop with
`lineNumber = index + 1`. -/
def perLines (file : String) (isTest isTs : Bool) : Nat → List (List Char) → List NamingIssue
  | _, [] => []
  | n, l :: rest => lineIssues file isTest isTs n l ++ perLines file isTest isTs (n + 1) rest

/-- `analyzeFileNaming(file, content)`. -/
def analyzeFileNaming (file : String) (content : String) : List NamingIssue :=
  perLines file (isTestFile file) (isTsFile file) 1 (splitLines content.toList)

/-- `analyzeNaming(files)`: sequentially read each file through the
Content Provider and concatenate the per-file issues in caller-supplied
order.  The source has no try/catch around `readFileContent`, so a
rejected read propagates and aborts the whole run (the `Except`
short-circuit). -/
def analyzeNaming (provider : String → Except String String) :
    List String → Except String (List NamingIssue)
  | [] => Except.ok []
  | f :: rest =>
      match provider f with
      | Except.error e => Except.error e
      | Except.ok content =>
          match analyzeNaming provider rest with
          | Except.error e => Except.error e
          | Except.ok l => Except.ok (analyzeFileNaming f content ++ l)

/-- The `dominantConvention` union of the source. -/
inductive Convention
  | camelCase
  | snake_case
  | pascalCase
  | mixed
deriving DecidableEq

/-- The float comparison `camelCaseCount / totalChecks > 0.3` of
`detectNamingConventions`, modelled exactly over the integers it is
applied to: for a nonzero denominator the IEEE quotient compares to the
literal `0.3` exactly as the rational `c/t` compares to `3/10` (both
round to the same double at the boundary `c/t = 3/10`, and away from the
boundary the gap exceeds all rounding error for every denominator the
analyzer can build), and for a zero denominator IEEE gives
`c/0 = Infinity > 0.3` when `c > 0` and `0/0 = NaN`, whose comparison is
false. -/
def ratioGtPoint3 (c t : Nat) : Bool :=
  if t = 0 then decide (0 < c)
  else decide ((3 : ℚ) / 10 < (c : ℚ) / (t : ℚ))

/-- `detectNamingConventions(files, allIssues)`: counts `convention-mix`
issues against `files.length * 10` estimated checks. -/
def detectNamingConventions (files : List String) (allIssues : List NamingIssue) :
    Convention × ℚ :=
  let camelCaseCount := (allIssues.filter fun i => i.type == IssueType.conventionMix).length
  let totalChecks := files.length * 10
  if ratioGtPoint3 camelCaseCount totalChecks then (Convention.mixed, (1 : ℚ) / 2)
  else (Convention.camelCase, (9 : ℚ) / 10)

/-- Lexicographic order on character lists (strict), used to express
"sorted by file path". -/
def charsLt : List Char → List Char → Bool
  | [], [] => false
  | [], _ :: _ => true
  | _ :: _, [] => false
  | a :: as, b :: bs => a < b || (a == b && charsLt as bs)

/-- The "file path then line number" order on issues. -/
def issueLE (a b : NamingIssue) : Prop :=
  charsLt a.file.toList b.file.toList = true ∨ (a.file = b.file ∧ a.line ≤ b.line)

/-- An issue list is sorted by file path then line number. -/
def issuesSorted (l : List NamingIssue) : Prop := l.Pairwise issueLE

/-- Comparison definition (not part of the source, for the
unreachability statement of the date/time override): the abbreviation
loop body with the date/time override branch deleted and everything else
unchanged. -/
def abbrevEmitNoDate (file : String) (line : List Char) (n : Nat) (tok : List Char) :
    Option NamingIssue :=
  let ab := tok.map lcChar
  if decide (String.mk ab ∈ COMMON_SHORT_WORDS) then none
  else if decide (String.mk ab ∈ ACCEPTABLE_ABBREVIATIONS) then none
  else
    let isArrowFunctionParam := parenParamTest line || abbrevArrowTest ab line
    if isArrowFunctionParam then none
    else
      if ab.length ≤ 2 then
        if isUserContextFn line && decide (String.mk ab = "u") then none
        else some (mkAbbrevIssue file n tok)
      else some (mkAbbrevIssue file n tok)

/-- The abbreviation rule built on `abbrevEmitNoDate` (comparison only). -/
def abbrevLineIssuesNoDate (file : String) (n : Nat) (line : List Char) : List NamingIssue :=
  (abbrevScan line).filterMap (abbrevEmitNoDate file line n)

end AiReady

namespace AiReady

/-! ### Generic helper lemmas -/

/-- A list is pairwise related when every pair of its members is. -/
theorem pairwiseOfForallMem {α : Type} {R : α → α → Prop} :
    ∀ l : List α, (∀ a ∈ l, ∀ b ∈ l, R a b) → l.Pairwise R
  | [], _ => .nil
  | x :: xs, h =>
      .cons (fun b hb => h x (by simp) b (by simp [hb]))
        (pairwiseOfForallMem xs fun a ha b hb =>
          h a (by simp [ha]) b (by simp [hb]))

/-- `lcChar` fixes lowercase letters. -/
theorem lcChar_fixed {c : Char} (h : isLowerAZ c = true) : lcChar c = c := by
  unfold lcChar
  rw [if_neg]
  simp only [isLowerAZ, Bool.and_eq_true, decide_eq_true_eq] at h
  simp only [isUpperAZ, Bool.and_eq_true, decide_eq_true_eq, not_and]
  intro _ h2
  exact absurd (le_trans h.1 h2) (by decide)

/-- Lowercasing fixes a token of lowercase letters. -/
theorem all_lower_map_lc {tok : List Char} (h : tok.all isLowerAZ = true) :
    tok.map lcChar = tok := by
  induction tok with
  | nil => rfl
  | cons c cs ih =>
      simp only [List.all_cons, Bool.and_eq_true] at h
      simp [lcChar_fixed h.1, ih h.2]

/-- Any property guaranteed by the matcher holds for every scan result. -/
theorem scanAll_forall {α : Type} {P : α → Prop}
    {m : Option Char → List Char → Option (α × Nat)}
    (hm : ∀ prev s a k, m prev s = some (a, k) → P a) :
    ∀ fuel prev s, ∀ a ∈ scanAll m fuel prev s, P a := by
  intro fuel
  induction fuel with
  | zero => intro prev s a ha; simp [scanAll] at ha
  | succ f ih =>
      intro prev s a ha
      cases s with
      | nil => simp [scanAll] at ha
      | cons c cs =>
          rw [scanAll] at ha
          cases hm2 : m prev (c :: cs) with
          | some r =>
              obtain ⟨a', k'⟩ := r
              rw [hm2, List.mem_cons] at ha
              rcases ha with ha | ha
              · exact ha ▸ hm prev (c :: cs) a' k' hm2
              · exact ih _ _ a ha
          | none =>
              rw [hm2] at ha
              exact ih _ _ a ha

/-- The greedy `{1,3}` attempt only returns all-lowercase tokens. -/
theorem abbrevTokAt_all {r2 : List Char} {len : Nat} {tok : List Char}
    (h : abbrevTokAt r2 len = some tok) : tok.all isLowerAZ = true := by
  simp only [abbrevTokAt] at h
  split at h
  · next hc =>
      injection h with h'
      subst h'
      simp only [Bool.and_eq_true] at hc
      exact hc.1.2
  · exact absurd h (by simp)

/-- The `orElse` chain of the three greedy attempts only returns
all-lowercase tokens. -/
theorem abbrevChain_all {r2 tok : List Char}
    (h : ((abbrevTokAt r2 3).orElse fun _ =>
            (abbrevTokAt r2 2).orElse fun _ => abbrevTokAt r2 1) = some tok) :
    tok.all isLowerAZ = true := by
  cases h3 : abbrevTokAt r2 3 with
  | some u =>
      rw [h3] at h
      simp only [Option.orElse, Option.some.injEq] at h
      exact h ▸ abbrevTokAt_all h3
  | none =>
      rw [h3] at h
      simp only [Option.orElse] at h
      cases h2 : abbrevTokAt r2 2 with
      | some u =>
          rw [h2] at h
          simp only [Option.some.injEq] at h
          exact h ▸ abbrevTokAt_all h2
      | none =>
          rw [h2] at h
          exact abbrevTokAt_all h

/-- The abbreviation matcher only captures all-lowercase tokens. -/
theorem matchAbbrev_tok_lower {prev : Option Char} {s tok : List Char} {k : Nat}
    (h : matchAbbrev prev s = some (tok, k)) : tok.all isLowerAZ = true := by
  simp only [matchAbbrev] at h
  split at h
  · split at h
    · split at h
      · split at h
        · next t ht =>
            injection h with h'
            have hteq : t = tok := congrArg Prod.fst h'
            exact hteq ▸ abbrevChain_all ht
        · exact absurd h (by simp)
      · exact absurd h (by simp)
    · exact absurd h (by simp)
  · exact absurd h (by simp)

/-- Every token produced by the abbreviation scan is all-lowercase. -/
theorem abbrevScan_all_lower (line : List Char) :
    ∀ tok ∈ abbrevScan line, tok.all isLowerAZ = true :=
  scanAll_forall (fun _ _ _ _ h => matchAbbrev_tok_lower h) line.length none line

end AiReady

namespace AiReady

/-! ### C1 -/

/-- C1: For every declared identifier occurrence captured by the
abbreviation regex whose (lowercased) token is in the common-word set or
in the accepted-abbreviation set, the abbreviation rule emits no issue
for that occurrence, on any line of any input file: equivalently, every
issue the rule emits has an identifier lying in neither set (the rule
checks the common-word set first, then the accepted-abbreviation set,
and either hit suppresses the push). -/
theorem abbreviation_rule_whitelists_suppress (file : String) (n : Nat) (line : List Char)
    (issue : NamingIssue) (h : issue ∈ abbrevLineIssues file n line) :
    issue.identifier ∉ COMMON_SHORT_WORDS ∧ issue.identifier ∉ ACCEPTABLE_ABBREVIATIONS := by
  obtain ⟨tok, htok, hemit⟩ := List.mem_filterMap.mp h
  have hfix : tok.map lcChar = tok := all_lower_map_lc (abbrevScan_all_lower line tok htok)
  simp only [abbrevEmit, hfix] at hemit
  split_ifs at hemit with h1 h2 h3 h4 h5 h6
  all_goals
    (injection hemit with he
     subst he
     exact ⟨fun hmem => h1 (decide_eq_true hmem), fun hmem => h2 (decide_eq_true hmem)⟩)

/-- Witness for C1: on the line `const usr = 1` the rule emits the issue
for `usr`, and `usr` is in neither whitelist. -/
theorem abbreviation_rule_whitelists_suppress_witness :
    ((⟨"f.ts", 1, .abbreviation, "usr", .info,
        "Consider using full word instead of abbreviation \x27usr\x27"⟩ : NamingIssue)
      ∈ abbrevLineIssues "f.ts" 1 "const usr = 1".toList)
    ∧ ("usr" : String) ∉ COMMON_SHORT_WORDS
    ∧ ("usr" : String) ∉ ACCEPTABLE_ABBREVIATIONS := by
  have hm : ((⟨"f.ts", 1, .abbreviation, "usr", .info,
        "Consider using full word instead of abbreviation \x27usr\x27"⟩ : NamingIssue)
      ∈ abbrevLineIssues "f.ts" 1 "const usr = 1".toList) := by decide
  exact ⟨hm, abbreviation_rule_whitelists_suppress "f.ts" 1 _ _ hm⟩

/-! ### C2 -/

/-- C2: the short-identifier rule never emits a `poor-naming` issue whose
identifier is one of `i, j, k, l, m, n, x, y, z` - for any line, any
surrounding context, and whether or not the file is classified as a test
file (the regex class `[a-hm-z]` already excludes `i`-`l`, and the
remaining letters are filtered by the exempt iterator set). -/
theorem single_letter_exempt_never_flagged (file : String) (isTest : Bool) (n : Nat)
    (line : List Char) (issue : NamingIssue)
    (h : issue ∈ singleLetterLineIssues file isTest n line) :
    issue.identifier ∉ (["i", "j", "k", "l", "m", "n", "x", "y", "z"] : List String) := by
  obtain ⟨c, _, hemit⟩ := List.mem_filterMap.mp h
  simp only [singleLetterEmit] at hemit
  split_ifs at hemit with h1 h2
  all_goals injection hemit with he
  subst he
  simp only [Bool.and_eq_true] at h1
  have hlc : lcChar c ∉ (['x', 'y', 'z', 'i', 'j', 'k', 'l', 'n', 'm'] : List Char) := by
    simpa using h1.2
  intro hmem
  have hmem2 : String.mk [c] ∈ (["i", "j", "k", "l", "m", "n", "x", "y", "z"] : List String) :=
    hmem
  have hc2 : c ∈ (['i', 'j', 'k', 'l', 'm', 'n', 'x', 'y', 'z'] : List Char) := by
    have h1m := List.mem_map_of_mem String.toList hmem2
    simpa using h1m
  fin_cases hc2 <;> exact hlc (by decide)

/-- Witness for C2: the line `const a = 5` yields an issue for `a`, whose
identifier is outside the exempt iterator set. -/
theorem single_letter_exempt_never_flagged_witness :
    ((⟨"f.ts", 1, .poorNaming, "a", .minor,
        "Use descriptive variable name instead of single letter \x27a\x27"⟩ : NamingIssue)
      ∈ singleLetterLineIssues "f.ts" false 1 "const a = 5".toList)
    ∧ ("a" : String) ∉ (["i", "j", "k", "l", "m", "n", "x", "y", "z"] : List String) := by
  have hm : ((⟨"f.ts", 1, .poorNaming, "a", .minor,
        "Use descriptive variable name instead of single letter \x27a\x27"⟩ : NamingIssue)
      ∈ singleLetterLineIssues "f.ts" false 1 "const a = 5".toList) := by decide
  exact ⟨hm, single_letter_exempt_never_flagged "f.ts" false 1 _ _ hm⟩

/-! ### C3 -/

/-- C3: the two semantic overrides of the abbreviation rule (date/time
and user/auth vocabulary) are evaluated only for tokens of length at
most 2, so a captured 3-letter token outside both whitelists (and not in
arrow-parameter context, the one remaining suppressor) is flagged no
matter what vocabulary the line mentions; in particular the line
`const usr = getUser();` yields exactly one `abbreviation` issue, for
`usr`, with severity `info`, even though the line matches the user/auth
vocabulary. -/
theorem abbrev_overrides_only_short_tokens :
    (∀ (file : String) (n : Nat) (line tok : List Char),
        tok ∈ abbrevScan line → tok.length = 3 →
        String.mk (tok.map lcChar) ∉ COMMON_SHORT_WORDS →
        String.mk (tok.map lcChar) ∉ ACCEPTABLE_ABBREVIATIONS →
        (parenParamTest line || abbrevArrowTest (tok.map lcChar) line) = false →
        mkAbbrevIssue file n tok ∈ abbrevLineIssues file n line)
    ∧ (analyzeFileNaming "file.ts" "const usr = getUser();").filter
        (fun i => i.type == IssueType.abbreviation) =
      [⟨"file.ts", 1, .abbreviation, "usr", .info,
        "Consider using full word instead of abbreviation \x27usr\x27"⟩] := by
  constructor
  · intro file n line tok htok hlen hc ha harr
    refine List.mem_filterMap.mpr ⟨tok, htok, ?_⟩
    simp only [abbrevEmit]
    have h1 : ¬(decide (String.mk (List.map lcChar tok) ∈ COMMON_SHORT_WORDS) = true) := by
      simpa using hc
    have h2 : ¬(decide (String.mk (List.map lcChar tok) ∈ ACCEPTABLE_ABBREVIATIONS) = true) := by
      simpa using ha
    have h3 : ¬((parenParamTest line || abbrevArrowTest (List.map lcChar tok) line) = true) := by
      simp [harr]
    have h4 : ¬((List.map lcChar tok).length ≤ 2) := by
      simp [List.length_map, hlen]
    rw [if_neg h1, if_neg h2, if_neg h3, if_neg h4]
  · decide

/-- Witness for C3: on the line `const usr = date;` (which mentions the
date vocabulary) the 3-letter token `usr` is still flagged. -/
theorem abbrev_overrides_only_short_tokens_witness :
    mkAbbrevIssue "g.ts" 2 "usr".toList
      ∈ abbrevLineIssues "g.ts" 2 "const usr = date;".toList :=
  abbrev_overrides_only_short_tokens.1 "g.ts" 2 _ _
    (by decide) (by decide) (by decide) (by decide) (by decide)

/-! ### C4 -/

/-- C4: on the input line `const a = 5;` (which is outside every
loop/collection-transform/i18n/arrow-parameter context) in any non-test
file, the Naming Rule Engine emits exactly one `poor-naming` issue, with
identifier `a` and severity `minor`. -/
theorem single_letter_scenario_poor_naming (file : String) (h : isTestFile file = false) :
    (analyzeFileNaming file "const a = 5;").filter
        (fun i => i.type == IssueType.poorNaming) =
      [⟨file, 1, .poorNaming, "a", .minor,
        "Use descriptive variable name instead of single letter \x27a\x27"⟩] := by
  unfold analyzeFileNaming
  rw [h]
  cases hts : isTsFile file
  · rfl
  · rfl

/-- Witness for C4 at the non-test file `file.ts`. -/
theorem single_letter_scenario_poor_naming_witness :
    (analyzeFileNaming "file.ts" "const a = 5;").filter
        (fun i => i.type == IssueType.poorNaming) =
      [⟨"file.ts", 1, .poorNaming, "a", .minor,
        "Use descriptive variable name instead of single letter \x27a\x27"⟩] :=
  single_letter_scenario_poor_naming "file.ts" (by decide)

end AiReady

namespace AiReady

/-! ### Field lemmas for the per-rule emitters -/

/-- `filterMap` respects pointwise-equal functions. -/
theorem filterMapCongr {α β : Type} {f g : α → Option β} :
    ∀ {l : List α}, (∀ a ∈ l, f a = g a) → l.filterMap f = l.filterMap g
  | [], _ => rfl
  | a :: as, h => by
      simp only [List.filterMap_cons, h a (by simp)]
      rw [filterMapCongr fun x hx => h x (by simp [hx])]

/-- Fields of an issue emitted by the single-letter rule. -/
theorem singleLetterEmit_fields {file : String} {isTest : Bool} {line : List Char} {n : Nat}
    {c : Char} {issue : NamingIssue} (h : singleLetterEmit file isTest line n c = some issue) :
    issue.file = file ∧ issue.line = n ∧ issue.type = IssueType.poorNaming := by
  simp only [singleLetterEmit] at h
  split_ifs at h
  all_goals injection h with he
  subst he
  exact ⟨rfl, rfl, rfl⟩

/-- Fields of an issue emitted by the abbreviation rule. -/
theorem abbrevEmit_fields {file : String} {line : List Char} {n : Nat}
    {tok : List Char} {issue : NamingIssue} (h : abbrevEmit file line n tok = some issue) :
    issue.file = file ∧ issue.line = n ∧ issue.type = IssueType.abbreviation := by
  simp only [abbrevEmit] at h
  split_ifs at h
  all_goals injection h with he
  all_goals subst he
  all_goals exact ⟨rfl, rfl, rfl⟩

/-- Fields of an issue emitted by the boolean-clarity rule. -/
theorem booleanEmit_fields {file : String} {n : Nat} {tok : List Char} {issue : NamingIssue}
    (h : booleanEmit file n tok = some issue) :
    issue.file = file ∧ issue.line = n ∧ issue.type = IssueType.unclear := by
  simp only [booleanEmit] at h
  split_ifs at h
  all_goals injection h with he
  subst he
  exact ⟨rfl, rfl, rfl⟩

/-- Fields of an issue emitted by the function-verb rule. -/
theorem functionEmit_fields {file : String} {n : Nat} {tok : List Char} {issue : NamingIssue}
    (h : functionEmit file n tok = some issue) :
    issue.file = file ∧ issue.line = n ∧ issue.type = IssueType.unclear := by
  simp only [functionEmit] at h
  split_ifs at h
  all_goals injection h with he
  subst he
  exact ⟨rfl, rfl, rfl⟩

/-- Fields of an issue emitted by the convention-mix rule. -/
theorem snakeLineIssues_fields {file : String} {n : Nat} {line : List Char} {issue : NamingIssue}
    (h : issue ∈ snakeLineIssues file n line) :
    issue.file = file ∧ issue.line = n ∧ issue.type = IssueType.conventionMix := by
  unfold snakeLineIssues at h
  cases hh : (snakeScan line).head? with
  | some tok =>
      rw [hh, List.mem_singleton] at h
      subst h
      exact ⟨rfl, rfl, rfl⟩
  | none =>
      rw [hh] at h
      exact absurd h (by simp)


/-- The single-letter rule only emits `poor-naming` issues. -/
theorem singleLetter_filter_mix (file : String) (isTest : Bool) (n : Nat) (line : List Char) :
    (singleLetterLineIssues file isTest n line).filter
      (fun i => i.type == IssueType.conventionMix) = [] := by
  rw [List.filter_eq_nil_iff]
  intro a ha
  obtain ⟨c, _, hemit⟩ := List.mem_filterMap.mp ha
  have := (singleLetterEmit_fields hemit).2.2
  simp [this]

/-- The abbreviation rule only emits `abbreviation` issues. -/
theorem abbrev_filter_mix (file : String) (n : Nat) (line : List Char) :
    (abbrevLineIssues file n line).filter
      (fun i => i.type == IssueType.conventionMix) = [] := by
  rw [List.filter_eq_nil_iff]
  intro a ha
  obtain ⟨tok, _, hemit⟩ := List.mem_filterMap.mp ha
  have := (abbrevEmit_fields hemit).2.2
  simp [this]

/-- The boolean-clarity rule only emits `unclear` issues. -/
theorem boolean_filter_mix (file : String) (n : Nat) (line : List Char) :
    (booleanLineIssues file n line).filter
      (fun i => i.type == IssueType.conventionMix) = [] := by
  rw [List.filter_eq_nil_iff]
  intro a ha
  obtain ⟨tok, _, hemit⟩ := List.mem_filterMap.mp ha
  have := (booleanEmit_fields hemit).2.2
  simp [this]

/-- The function-verb rule only emits `unclear` issues. -/
theorem function_filter_mix (file : String) (n : Nat) (line : List Char) :
    (functionLineIssues file n line).filter
      (fun i => i.type == IssueType.conventionMix) = [] := by
  rw [List.filter_eq_nil_iff]
  intro a ha
  obtain ⟨tok, _, hemit⟩ := List.mem_filterMap.mp ha
  have := (functionEmit_fields hemit).2.2
  simp [this]

/-- On a `ts/tsx/js/jsx` line, the `convention-mix` issues of the whole
engine are exactly those of the snake-case rule. -/
theorem lineIssues_filter_mix (file : String) (isTest : Bool) (n : Nat) (line : List Char) :
    (lineIssues file isTest true n line).filter
      (fun i => i.type == IssueType.conventionMix) = snakeLineIssues file n line := by
  unfold lineIssues
  simp only [if_pos rfl]
  rw [List.filter_append, List.filter_append, List.filter_append, List.filter_append]
  rw [singleLetter_filter_mix, abbrev_filter_mix, boolean_filter_mix, function_filter_mix]
  rw [List.filter_eq_self.mpr]
  · simp
  · intro a ha
    have := (snakeLineIssues_fields ha).2.2
    simp [this]

/-! ### C5 -/

/-- C5 counterexample: the line `const a_b = 1; const c_d = 2;` contains
two declared snake-case identifiers (`a_b` and `c_d` are both matches of
the snake-case pattern), yet the engine emits a `convention-mix` issue
only for the first one - the source uses `line.match`, which returns
only the first match - so the rule does not flag every declared
snake-case identifier on a line. -/
theorem convention_mix_misses_second_snake :
    "c_d".toList ∈ snakeScan "const a_b = 1; const c_d = 2;".toList
    ∧ (analyzeFileNaming "f.ts" "const a_b = 1; const c_d = 2;").filter
        (fun i => i.type == IssueType.conventionMix) =
      [⟨"f.ts", 1, .conventionMix, "a_b", .minor,
        "Use camelCase \x27aB\x27 instead of snake_case in TypeScript/JavaScript"⟩] := by
  constructor
  · decide
  · decide

/-- C5 (amended): in a `ts/tsx/js/jsx` file the convention-mix rule
flags only the FIRST declared snake-case identifier of a line (at most
one `convention-mix` issue per line), proposing the camelCase equivalent
obtained by removing each underscore and upper-casing the following
letter; in particular `const user_name = \x27John\x27;` yields one issue
suggesting `userName`. -/
theorem convention_mix_flags_first_snake (file : String) (isTest : Bool) (n : Nat)
    (line : List Char) :
    ((lineIssues file isTest true n line).filter
        (fun i => i.type == IssueType.conventionMix)).length ≤ 1
    ∧ (∀ tok, (snakeScan line).head? = some tok →
        (⟨file, n, .conventionMix, String.mk tok, .minor,
          "Use camelCase \x27" ++ String.mk (snakeCaseToCamelCase tok)
            ++ "\x27 instead of snake_case in TypeScript/JavaScript"⟩ : NamingIssue)
          ∈ lineIssues file isTest true n line)
    ∧ (analyzeFileNaming "f.ts" "const user_name = \x27John\x27;").filter
        (fun i => i.type == IssueType.conventionMix) =
      [⟨"f.ts", 1, .conventionMix, "user_name", .minor,
        "Use camelCase \x27userName\x27 instead of snake_case in TypeScript/JavaScript"⟩] := by
  refine ⟨?_, ?_, by decide⟩
  · rw [lineIssues_filter_mix]
    unfold snakeLineIssues
    cases (snakeScan line).head? <;> simp
  · intro tok htok
    unfold lineIssues
    simp only [if_pos rfl]
    refine List.mem_append.mpr (Or.inl (List.mem_append.mpr (Or.inl
      (List.mem_append.mpr (Or.inr ?_)))))
    unfold snakeLineIssues
    rw [htok]
    simp

/-- Witness for C5 at the line `const x_y = 1`. -/
theorem convention_mix_flags_first_snake_witness :
    (⟨"w.ts", 3, .conventionMix, "x_y", .minor,
      "Use camelCase \x27xY\x27 instead of snake_case in TypeScript/JavaScript"⟩ : NamingIssue)
      ∈ lineIssues "w.ts" false true 3 "const x_y = 1".toList :=
  (convention_mix_flags_first_snake "w.ts" false 3 "const x_y = 1".toList).2.1
    "x_y".toList (by decide)


/-! ### C6 -/

/-- C6: for a nonempty file list, `detectNamingConventions` returns
`mixed` with score `0.5` exactly when the number of `convention-mix`
issues divided by (file count times the fixed per-file sampling
constant 10) exceeds the fixed threshold `0.3`, and otherwise returns
`camelCase` with score `0.9`; it is a pure function, so re-running it on
the same `(files, issues)` pair yields the same result. -/
theorem detect_conventions_threshold (files : List String) (issues : List NamingIssue)
    (h : files ≠ []) :
    ((detectNamingConventions files issues = (Convention.mixed, (1 : ℚ) / 2)) ↔
      (3 : ℚ) / 10 <
        (((issues.filter fun i => i.type == IssueType.conventionMix).length : ℚ) /
          ((files.length * 10 : ℕ) : ℚ)))
    ∧ ((detectNamingConventions files issues = (Convention.camelCase, (9 : ℚ) / 10)) ↔
        ¬((3 : ℚ) / 10 <
          (((issues.filter fun i => i.type == IssueType.conventionMix).length : ℚ) /
            ((files.length * 10 : ℕ) : ℚ))))
    ∧ detectNamingConventions files issues = detectNamingConventions files issues := by
  have ht : files.length * 10 ≠ 0 := by
    have h0 : files.length ≠ 0 := fun h0 => h (List.length_eq_zero.mp h0)
    omega
  refine ⟨?_, ?_, rfl⟩ <;>
    by_cases hcond : (3 : ℚ) / 10 <
        (((issues.filter fun i => i.type == IssueType.conventionMix).length : ℚ) /
          ((files.length * 10 : ℕ) : ℚ)) <;>
      simp [detectNamingConventions, ratioGtPoint3, ht, hcond]

/-- Witness for C6: one file and no issues give ratio `0`, below the
threshold, hence the `camelCase` default with score `0.9`. -/
theorem detect_conventions_threshold_witness :
    detectNamingConventions ["a.ts"] [] = (Convention.camelCase, (9 : ℚ) / 10) :=
  ((detect_conventions_threshold ["a.ts"] [] (by simp)).2.1).mpr (by norm_num)

/-! ### C9 -/

/-- C9: with an empty file list the estimated total is `0`, and the
modelled IEEE comparison `count / 0 > 0.3` makes `detectNamingConventions`
total: it returns `(mixed, 0.5)` when at least one `convention-mix`
issue is present (the quotient is positive infinity) and
`(camelCase, 0.9)` when none is (the `0/0 = NaN` comparison is false). -/
theorem detect_conventions_empty_files (issues : List NamingIssue) :
    detectNamingConventions [] issues =
      (if (issues.filter fun i => i.type == IssueType.conventionMix).length ≠ 0
        then (Convention.mixed, (1 : ℚ) / 2)
        else (Convention.camelCase, (9 : ℚ) / 10)) := by
  by_cases h : (issues.filter fun i => i.type == IssueType.conventionMix).length = 0
  · simp [detectNamingConventions, ratioGtPoint3, h]
  · simp [detectNamingConventions, ratioGtPoint3, h, Nat.pos_of_ne_zero h]

/-! ### C8 -/

/-- C8 (evidence of the divergence): when the Content Provider fails for
the first of two files, `analyzeNaming` rejects the whole run with the
read error and returns no issues at all - the loop has no try/catch -
even though analyzing the remaining readable file alone succeeds and
yields its issues.  The spec instead requires the failure to be
file-scoped and non-fatal (skip the unreadable file and return the
issues of the readable ones). -/
theorem analyze_naming_aborts_on_read_error :
    analyzeNaming
        (fun f => if f == "bad.ts" then Except.error "ENOENT" else Except.ok "const usr = 1")
        ["bad.ts", "good.ts"] = Except.error "ENOENT"
    ∧ analyzeNaming
        (fun f => if f == "bad.ts" then Except.error "ENOENT" else Except.ok "const usr = 1")
        ["good.ts"] =
      Except.ok [⟨"good.ts", 1, .abbreviation, "usr", .info,
        "Consider using full word instead of abbreviation \x27usr\x27"⟩] :=
  ⟨rfl, rfl⟩

/-! ### C10 -/

/-- C10: the date/time override of the abbreviation rule is dead code:
the only tokens it could suppress (`d`, `t`, `dt`) are members of the
accepted-abbreviation whitelist, which is consulted earlier and already
suppresses them, so deleting the override branch leaves the rule's
output unchanged on every file, line and token - whether a line mentions
date/time vocabulary never changes the abbreviation rule's output. -/
theorem date_time_override_unreachable :
    (∀ (file : String) (n : Nat) (line : List Char),
        abbrevLineIssues file n line = abbrevLineIssuesNoDate file n line)
    ∧ ("d" : String) ∈ ACCEPTABLE_ABBREVIATIONS
    ∧ ("t" : String) ∈ ACCEPTABLE_ABBREVIATIONS
    ∧ ("dt" : String) ∈ ACCEPTABLE_ABBREVIATIONS := by
  refine ⟨?_, by decide, by decide, by decide⟩
  intro file n line
  unfold abbrevLineIssues abbrevLineIssuesNoDate
  apply filterMapCongr
  intro tok _
  simp only [abbrevEmit, abbrevEmitNoDate]
  by_cases h1 : String.mk (tok.map lcChar) ∈ COMMON_SHORT_WORDS
  · simp [h1]
  by_cases h2 : String.mk (tok.map lcChar) ∈ ACCEPTABLE_ABBREVIATIONS
  · simp [h1, h2]
  have hdis : ¬(String.mk (tok.map lcChar) = "d" ∨ String.mk (tok.map lcChar) = "t" ∨
      String.mk (tok.map lcChar) = "dt") := by
    rintro (hm | hm | hm) <;> rw [hm] at h2 <;> exact h2 (by decide)
  simp [h1, h2, hdis]


/-! ### C7 -/

/-- Every issue of one line carries that line's file and number. -/
theorem lineIssues_fields {file : String} {isTest isTs : Bool} {n : Nat} {line : List Char}
    {issue : NamingIssue} (h : issue ∈ lineIssues file isTest isTs n line) :
    issue.file = file ∧ issue.line = n := by
  unfold lineIssues at h
  rcases List.mem_append.mp h with h4 | h
  · rcases List.mem_append.mp h4 with h3 | h
    · rcases List.mem_append.mp h3 with h2 | h
      · rcases List.mem_append.mp h2 with h | h
        · obtain ⟨c, _, hemit⟩ := List.mem_filterMap.mp h
          exact ⟨(singleLetterEmit_fields hemit).1, (singleLetterEmit_fields hemit).2.1⟩
        · obtain ⟨tok, _, hemit⟩ := List.mem_filterMap.mp h
          exact ⟨(abbrevEmit_fields hemit).1, (abbrevEmit_fields hemit).2.1⟩
      · cases isTs with
        | false => exact absurd h (by simp)
        | true =>
            rw [if_pos rfl] at h
            exact ⟨(snakeLineIssues_fields h).1, (snakeLineIssues_fields h).2.1⟩
    · obtain ⟨tok, _, hemit⟩ := List.mem_filterMap.mp h
      exact ⟨(booleanEmit_fields hemit).1, (booleanEmit_fields hemit).2.1⟩
  · obtain ⟨tok, _, hemit⟩ := List.mem_filterMap.mp h
    exact ⟨(functionEmit_fields hemit).1, (functionEmit_fields hemit).2.1⟩

/-- Every issue of the line loop started at number `n` carries the file
name and a line number of at least `n`. -/
theorem perLines_fields (file : String) (isTest isTs : Bool) :
    ∀ (n : Nat) (ls : List (List Char)) (issue : NamingIssue),
      issue ∈ perLines file isTest isTs n ls → issue.file = file ∧ n ≤ issue.line := by
  intro n ls
  induction ls generalizing n with
  | nil =>
      intro issue h
      rw [perLines] at h
      exact absurd h (by simp)
  | cons l rest ih =>
      intro issue h
      rw [perLines] at h
      rcases List.mem_append.mp h with h | h
      · obtain ⟨hf, hl⟩ := lineIssues_fields h
        exact ⟨hf, by omega⟩
      · obtain ⟨hf, hl⟩ := ih (n + 1) issue h
        exact ⟨hf, by omega⟩

/-- The issues of one file are pairwise ordered by file-then-line
(the file is constant and the line numbers are nondecreasing). -/
theorem perLines_pairwise (file : String) (isTest isTs : Bool) :
    ∀ (n : Nat) (ls : List (List Char)),
      (perLines file isTest isTs n ls).Pairwise issueLE := by
  intro n ls
  induction ls generalizing n with
  | nil =>
      rw [perLines]
      exact List.Pairwise.nil
  | cons l rest ih =>
      rw [perLines, List.pairwise_append]
      refine ⟨?_, ih (n + 1), ?_⟩
      · apply pairwiseOfForallMem
        intro a ha b hb
        obtain ⟨haf, hal⟩ := lineIssues_fields ha
        obtain ⟨hbf, hbl⟩ := lineIssues_fields hb
        exact Or.inr ⟨haf.trans hbf.symm, by omega⟩
      · intro a ha b hb
        obtain ⟨haf, hal⟩ := lineIssues_fields ha
        obtain ⟨hbf, hbl⟩ := perLines_fields file isTest isTs (n + 1) rest b hb
        exact Or.inr ⟨haf.trans hbf.symm, by omega⟩

/-- Every issue of a successful `analyzeNaming` run names one of the
input files. -/
theorem analyzeNaming_ok_file_mem (provider : String → Except String String) :
    ∀ (files : List String) (l : List NamingIssue),
      analyzeNaming provider files = Except.ok l →
      ∀ issue ∈ l, ∃ f ∈ files, issue.file = f := by
  intro files
  induction files with
  | nil =>
      intro l h issue hi
      rw [analyzeNaming] at h
      injection h with h2
      subst h2
      exact absurd hi (by simp)
  | cons f rest ih =>
      intro l h issue hi
      rw [analyzeNaming] at h
      cases hp : provider f with
      | error e => rw [hp] at h; exact absurd h (by simp)
      | ok content =>
          rw [hp] at h
          cases hr : analyzeNaming provider rest with
          | error e => rw [hr] at h; exact absurd h (by simp)
          | ok l2 =>
              rw [hr] at h
              injection h with h2
              subst h2
              rcases List.mem_append.mp hi with hi | hi
              · refine ⟨f, by simp, ?_⟩
                unfold analyzeFileNaming at hi
                exact (perLines_fields f (isTestFile f) (isTsFile f) 1 _ issue hi).1
              · obtain ⟨g, hg, hfg⟩ := ih l2 hr issue hi
                exact ⟨g, by simp [hg], hfg⟩

/-- C7 counterexample: the caller supplies the files in the order
`b.ts`, `a.ts`; `analyzeNaming` concatenates the per-file issue blocks
in that caller-supplied order without re-sorting, so the returned list
is not sorted by file path. -/
theorem analyze_naming_unsorted_for_unsorted_input :
    analyzeNaming (fun _ => Except.ok "const usr = 1") ["b.ts", "a.ts"] =
      Except.ok
        [⟨"b.ts", 1, .abbreviation, "usr", .info,
          "Consider using full word instead of abbreviation \x27usr\x27"⟩,
         ⟨"a.ts", 1, .abbreviation, "usr", .info,
          "Consider using full word instead of abbreviation \x27usr\x27"⟩]
    ∧ ¬ issuesSorted
        [⟨"b.ts", 1, .abbreviation, "usr", .info,
          "Consider using full word instead of abbreviation \x27usr\x27"⟩,
         ⟨"a.ts", 1, .abbreviation, "usr", .info,
          "Consider using full word instead of abbreviation \x27usr\x27"⟩] := by
  refine ⟨rfl, ?_⟩
  intro hsorted
  unfold issuesSorted at hsorted
  rw [List.pairwise_cons] at hsorted
  have hrel := hsorted.1
    ⟨"a.ts", 1, .abbreviation, "usr", .info,
      "Consider using full word instead of abbreviation \x27usr\x27"⟩
    (List.mem_singleton.mpr rfl)
  rcases hrel with hlt | ⟨heq, _⟩
  · exact absurd hlt (by decide)
  · exact absurd heq (by decide)

/-- C7 (amended): `analyzeNaming` returns the per-file issue blocks in
caller-supplied file order, each block sorted by line; hence whenever
the caller's file sequence is strictly sorted by path, the returned
issue list is sorted by file path then line number (and the function is
pure, so two identical runs produce identical lists).  The engine itself
performs no re-sort, so the ordering guarantee is conditional on the
input order. -/
theorem analyze_naming_sorted_when_files_sorted
    (provider : String → Except String String) :
    ∀ (files : List String) (l : List NamingIssue),
      files.Pairwise (fun a b => charsLt a.toList b.toList = true) →
      analyzeNaming provider files = Except.ok l → issuesSorted l := by
  intro files
  induction files with
  | nil =>
      intro l _ h
      rw [analyzeNaming] at h
      injection h with h2
      subst h2
      exact List.Pairwise.nil
  | cons f rest ih =>
      intro l hsort h
      rw [analyzeNaming] at h
      cases hp : provider f with
      | error e => rw [hp] at h; exact absurd h (by simp)
      | ok content =>
          rw [hp] at h
          cases hr : analyzeNaming provider rest with
          | error e => rw [hr] at h; exact absurd h (by simp)
          | ok l2 =>
              rw [hr] at h
              injection h with h2
              subst h2
              rw [List.pairwise_cons] at hsort
              unfold issuesSorted
              rw [List.pairwise_append]
              refine ⟨?_, ih l2 hsort.2 hr, ?_⟩
              · unfold analyzeFileNaming
                exact perLines_pairwise f (isTestFile f) (isTsFile f) 1 _
              · intro a ha b hb
                have haf : a.file = f := by
                  unfold analyzeFileNaming at ha
                  exact (perLines_fields f (isTestFile f) (isTsFile f) 1 _ a ha).1
                obtain ⟨g, hg, hbg⟩ := analyzeNaming_ok_file_mem provider rest l2 hr b hb
                refine Or.inl ?_
                rw [haf, hbg]
                exact hsort.1 g hg

/-- Witness for C7: with the files already sorted (`a.ts` before
`b.ts`), the returned list is sorted by file path then line. -/
theorem analyze_naming_sorted_when_files_sorted_witness :
    issuesSorted
      [⟨"a.ts", 1, .abbreviation, "usr", .info,
        "Consider using full word instead of abbreviation \x27usr\x27"⟩,
       ⟨"b.ts", 1, .abbreviation, "usr", .info,
        "Consider using full word instead of abbreviation \x27usr\x27"⟩] :=
  analyze_naming_sorted_when_files_sorted (fun _ => Except.ok "const usr = 1")
    ["a.ts", "b.ts"] _
    (by
      refine List.Pairwise.cons ?_ (List.Pairwise.cons (by simp) List.Pairwise.nil)
      intro b hb
      rw [List.mem_singleton] at hb
      subst hb
      decide)
    rfl

end AiReady
